import Mathlib

/-!
Shallow embedding of the three configuration-sync scripts of this repository
(`sync-config.py`, `sync-resource.py`, `sync-single.py`). The filesystem is a
finite association map from absolute paths to entries; the manifest is the
static configuration object the scripts load; each sync function is a state
transformer over the filesystem that mirrors the Python source line by line.
Theorems about the resolution and synchronization behaviour follow the
definitions.
-/

namespace SyncSpec

/-- An absolute filesystem path, as its list of components. -/
abbrev FsPath := List String

/-- A filesystem entry: a regular file with its content, a directory, or a
symbolic link storing its target path. The scripts only ever create links
whose target is an already-resolved absolute path, so targets are stored
fully resolved. -/
inductive Entry
  | file (content : String)
  | dir
  | symlink (target : FsPath)
deriving DecidableEq

/-- The filesystem: an association list from absolute paths to entries. The
first binding for a path is the authoritative one. -/
abbrev FS := List (FsPath × Entry)

/-- Entry stored at path `p`, if any. -/
def FS.lookup (fs : FS) (p : FsPath) : Option Entry :=
  (fs.find? (fun e => decide (e.1 = p))).map (fun e => e.2)

/-- Remove the single entry at `p` (`Path.unlink`). -/
def FS.removeEntry (fs : FS) (p : FsPath) : FS :=
  fs.filter (fun e => decide (¬ e.1 = p))

/-- Store entry `v` at path `p`, replacing any previous entry. -/
def FS.set (fs : FS) (p : FsPath) (v : Entry) : FS :=
  (p, v) :: FS.removeEntry fs p

/-- All entries whose path lies in the subtree rooted at `root`, including
`root` itself. -/
def FS.subtreeEntries (fs : FS) (root : FsPath) : List (FsPath × Entry) :=
  fs.filter (fun e => decide (root <+: e.1))

/-- Drop every entry in the subtree rooted at `root`. -/
def FS.removeTree (fs : FS) (root : FsPath) : FS :=
  fs.filter (fun e => decide (¬ root <+: e.1))

/-- Re-root a list of entries that live under `src` so they live under
`dst`. -/
def retarget (src dst : FsPath) (l : List (FsPath × Entry)) : List (FsPath × Entry) :=
  l.map (fun e => (dst ++ e.1.drop src.length, e.2))

/-- `shutil.move` of a whole file or directory tree: the subtree rooted at
`src` is re-rooted at `dst`; nothing else changes. -/
def FS.moveTree (fs : FS) (src dst : FsPath) : FS :=
  retarget src dst (FS.subtreeEntries fs src) ++ FS.removeTree fs src

/-- One step of symlink resolution at `p`, as the kernel performs when a path
is written through: the scripts only create links to already-resolved
absolute paths, so one step suffices. -/
def FS.resolveTop (fs : FS) (p : FsPath) : FsPath :=
  match FS.lookup fs p with
  | some (Entry.symlink t) => t
  | _ => p

/-- `Path.exists()`: follows a symbolic link; a dangling link does not
exist. -/
def FS.existsF (fs : FS) (p : FsPath) : Bool :=
  match FS.lookup fs p with
  | none => false
  | some (Entry.symlink t) => (FS.lookup fs t).isSome
  | some _ => true

/-- `Path.is_symlink()`: true also for a dangling link. -/
def FS.isSymlinkF (fs : FS) (p : FsPath) : Bool :=
  match FS.lookup fs p with
  | some (Entry.symlink _) => true
  | _ => false

/-- `Path.is_dir()`: follows a symbolic link. -/
def FS.isDirF (fs : FS) (p : FsPath) : Bool :=
  match FS.lookup fs p with
  | some Entry.dir => true
  | some (Entry.symlink t) =>
    match FS.lookup fs t with
    | some Entry.dir => true
    | _ => false
  | _ => false

/-- The chain of non-empty prefixes of `p`, shortest first. -/
def ancestorPaths (p : FsPath) : List FsPath :=
  (List.range p.length).map (fun i => p.take (i + 1))

/-- `Path.mkdir(parents=True, exist_ok=True)`: create a directory at every
missing ancestor of `p` and at `p` itself; existing entries are untouched. -/
def FS.mkdirAll (fs : FS) (p : FsPath) : FS :=
  (ancestorPaths p).foldl
    (fun acc q => if (FS.lookup acc q).isSome then acc else FS.set acc q Entry.dir) fs

/-- `Path.symlink_to`: `os.symlink` fails (raises) whenever any entry,
including a dangling link, already occupies `dst`. -/
def FS.symlinkTo (fs : FS) (dst src : FsPath) : Option FS :=
  if (FS.lookup fs dst).isSome then none else some (FS.set fs dst (Entry.symlink src))

/-- `shutil.copy2 src dst`: follows links on both sides; fails (raises
`FileNotFoundError`) when the source is missing. -/
def FS.copy2 (fs : FS) (src dst : FsPath) : Option FS :=
  match FS.lookup fs (FS.resolveTop fs src) with
  | some e => some (FS.set fs (FS.resolveTop fs dst) e)
  | none => none

/-- `shutil.copytree(src, dst, dirs_exist_ok=True)`: duplicates the source
subtree (read through a link when `src` is one) onto the destination
(written through a link when `dst` is one), merging with whatever is already
there: destination paths with no counterpart under the source keep their old
entries. -/
def FS.copyTree (fs : FS) (src dst : FsPath) : FS :=
  retarget (FS.resolveTop fs src) (FS.resolveTop fs dst)
      (FS.subtreeEntries fs (FS.resolveTop fs src)) ++ fs

/-- First value bound to `k` in an association list; Python `dict` access
with insertion order preserved. -/
def lookupStr {α : Type} (l : List (String × α)) (k : String) : Option α :=
  (l.find? (fun e => decide (e.1 = k))).map (fun e => e.2)

/-- One group under `sharedResources.skills.nestedSkills`: the `basePath`
holding the group's members and the member list under its `skills` key. An
absent `skills` key is modelled as the empty list, matching
`.get("skills", [])`. -/
structure NestedGroup where
  basePath : FsPath
  skills : List String
deriving DecidableEq

/-- One entry of `sharedResources`: its `path` and its `nestedSkills` table;
an absent `nestedSkills` key is modelled as the empty list. -/
structure ResourceInfo where
  path : FsPath
  nestedSkills : List (String × NestedGroup)
deriving DecidableEq

/-- One entry of `agentCompatibility`: the agent's `configDir` (already
`expanduser`-ed) and its `resourceMapping`. -/
structure AgentConfig where
  configDir : FsPath
  resourceMapping : List (String × FsPath)
deriving DecidableEq

/-- The loaded manifest object. -/
structure Manifest where
  sharedConfigPath : FsPath
  supportedAgents : List String
  agentCompatibility : List (String × AgentConfig)
  sharedResources : List (String × ResourceInfo)
deriving DecidableEq

/-- Interpretation of a relative mapping value against a base directory:
`..` steps to the parent, `.` stays, any other segment descends.
`sync-resource.py` and `sync-single.py` normalize eagerly via
`Path.resolve()`; `sync-config.py` leaves `..` segments to the kernel, which
resolves them at each syscall. Absent symlinked ancestors both denote the
same final path, modelled here uniformly. -/
def resolvePath (base : FsPath) (rel : FsPath) : FsPath :=
  rel.foldl
    (fun acc seg =>
      if seg = ".." then acc.dropLast else if seg = "." then acc else acc ++ [seg])
    base

/-- The two sync strategies (`symlink` aka link, `copy` aka duplicate). -/
inductive Strategy
  | symlink
  | copy
deriving DecidableEq

/-- Outcome of one Python sync function: returned `True`, returned `False`,
or terminated by an uncaught exception. -/
inductive SyncRet
  | rTrue
  | rFalse
  | raised
deriving DecidableEq

/-- The backup artifact name `<name>.backup.<timestamp>`. -/
def backupName (p : FsPath) (ts : String) : String :=
  p.getLastD "" ++ ".backup." ++ ts

/-- The backup artifact path: a sibling of `p`. -/
def backupPath (p : FsPath) (ts : String) : FsPath :=
  p.dropLast ++ [backupName p ts]

/-- `_backup_if_exists` of `sync-config.py` and `sync-resource.py` (lines
36-42, identical in both): a non-link existing destination is moved aside; a
link, or a dangling link for which `exists()` is already false, is left in
place. -/
def backupIfExists (fs : FS) (p : FsPath) (ts : String) : FS :=
  if FS.existsF fs p = true ∧ FS.isSymlinkF fs p = false then
    FS.moveTree fs p (backupPath p ts)
  else fs

/-- `_backup_if_exists` of `sync-single.py` (lines 59-71): an existing link
destination is unlinked without backup; another existing destination is
moved aside; `exists()` is false for a dangling link, which is therefore
left untouched. -/
def backupIfExistsSingle (fs : FS) (p : FsPath) (ts : String) : FS :=
  if FS.existsF fs p = true then
    if FS.isSymlinkF fs p = true then FS.removeEntry fs p
    else FS.moveTree fs p (backupPath p ts)
  else fs

/-- Destination preparation of `sync-resource.py::sync_resource` lines 90-96:
backup, then delete a leftover (possibly dangling) symlink. -/
def prepareDestResource (fs : FS) (p : FsPath) (ts : String) : FS :=
  let fs2 := backupIfExists fs p ts
  if FS.isSymlinkF fs2 p = true then FS.removeEntry fs2 p else fs2

/-- `Path.rglob("SKILL.md")` from `start`: every strict descendant whose last
component is the marker name, at unbounded depth. The OS reports entries in
unspecified order; the model enumerates in FS representation order. -/
def rglobSkillMd (fs : FS) (start : FsPath) : List FsPath :=
  (fs.filter
      (fun e =>
        decide (start <+: e.1 ∧ e.1 ≠ start ∧ e.1.getLast? = some "SKILL.md"))).map
    (fun e => e.1)

/-- `part.startswith('.')`: the first character is a dot (false for the
empty string). -/
def startsWithDot (s : String) : Bool :=
  match s.data with
  | [] => false
  | c :: _ => decide (c = '.')

/-- The hidden-directory filter of `_find_skill_md` line 54: it inspects all
parts of the absolute candidate path, not only the parts below `start`. -/
def hasHiddenPart (p : FsPath) : Bool :=
  p.any (fun part => startsWithDot part)

/-- The `for depth in range(3)` loop of `_find_skill_md` lines 51-55: every
iteration scans the same unbounded `rglob` enumeration, so the counter never
restricts the search depth. -/
def findSkillMdAttempts (fs : FS) (start : FsPath) : Nat → Option FsPath
  | 0 => none
  | d + 1 =>
    match (rglobSkillMd fs start).find? (fun item => ! hasHiddenPart item) with
    | some item => some item
    | none => findSkillMdAttempts fs start d

/-- `SingleItemSyncer._find_skill_md` (lines 36-57). -/
def findSkillMd (fs : FS) (start : FsPath) : Option FsPath :=
  if FS.existsF fs (start ++ ["SKILL.md"]) = true then some (start ++ ["SKILL.md"])
  else findSkillMdAttempts fs start 3

/-- The fixed per-agent override segment table (`agent_dir_map`,
`sync-single.py` lines 116-120). -/
def agentDirMap : List (String × String) :=
  [("claude-code", ".claude"), ("codex", ".codex"), ("opencode", ".opencode")]

/-- `self.config["sharedResources"]["skills"].get("nestedSkills", ...)`. -/
def skillsNestedGroups (m : Manifest) : List (String × NestedGroup) :=
  match lookupStr m.sharedResources "skills" with
  | some info => info.nestedSkills
  | none => []

/-- Nested-skill resolution, `sync_item` lines 105-112: when `base/item`
does not exist, the first enumerated group whose member list contains the
item relocates the source under the group's `basePath`. -/
def nestedSource (m : Manifest) (fs : FS) (resourceType : String) (sourceBase : FsPath)
    (itemName : String) : FsPath :=
  let source := sourceBase ++ [itemName]
  if resourceType = "skills" ∧ FS.existsF fs source = false then
    match (skillsNestedGroups m).find? (fun e => decide (itemName ∈ e.2.skills)) with
    | some e => sourceBase ++ e.2.basePath ++ [itemName]
    | none => source
  else source

/-- Agent-specific override and marker-file fallback, `sync_item` lines
114-140: for a directory source of kind skills, the tool override
subdirectory wins when it is a directory; otherwise the marker search may
retarget the source to the marker's containing directory. Agents outside
`agent_dir_map` skip both steps. -/
def overrideOrMarkerSource (fs : FS) (agent resourceType itemName : String)
    (source : FsPath) : FsPath :=
  if resourceType = "skills" ∧ FS.isDirF fs source = true then
    match lookupStr agentDirMap agent with
    | some agentSubdir =>
      let agentSkillPath := source ++ [agentSubdir, "skills", itemName]
      if FS.isDirF fs agentSkillPath = true then agentSkillPath
      else
        match findSkillMd fs source with
        | some skillMd => skillMd.dropLast
        | none => source
    | none => source
  else source

/-- The full source-resolution pipeline of `sync_item` lines 98-140. -/
def itemSource (m : Manifest) (fs : FS) (agent resourceType itemName : String) : FsPath :=
  let sourceBase :=
    m.sharedConfigPath ++
      (((lookupStr m.sharedResources resourceType).map (fun info => info.path)).getD [])
  overrideOrMarkerSource fs agent resourceType itemName
    (nestedSource m fs resourceType sourceBase itemName)

/-- `SingleItemSyncer.sync_item` (lines 73-188); `ts` is the timestamp the
backup step would stamp. -/
def syncItem (m : Manifest) (fs : FS) (agent resourceType itemName : String)
    (strategy : Strategy) (ts : String) : SyncRet × FS :=
  match lookupStr m.agentCompatibility agent with
  | none => (SyncRet.rFalse, fs)
  | some agentCfg =>
    if FS.existsF fs agentCfg.configDir = false then (SyncRet.rFalse, fs)
    else if (lookupStr m.sharedResources resourceType).isNone then (SyncRet.rFalse, fs)
    else
      let source := itemSource m fs agent resourceType itemName
      if FS.existsF fs source = false then (SyncRet.rFalse, fs)
      else
        match lookupStr agentCfg.resourceMapping resourceType with
        | none => (SyncRet.rFalse, fs)
        | some relPath =>
          let targetBase := resolvePath agentCfg.configDir relPath
          let target := targetBase ++ [itemName]
          let fs1 := FS.mkdirAll fs targetBase
          let fs2 := backupIfExistsSingle fs1 target ts
          match strategy with
          | Strategy.symlink =>
            match FS.symlinkTo fs2 target source with
            | some fs3 => (SyncRet.rTrue, fs3)
            | none => (SyncRet.raised, fs2)
          | Strategy.copy =>
            if FS.isDirF fs2 source = true then
              (SyncRet.rTrue, FS.copyTree fs2 source target)
            else
              match FS.copy2 fs2 source target with
              | some fs3 => (SyncRet.rTrue, fs3)
              | none => (SyncRet.raised, fs2)

/-- `ResourceSyncer.sync_resource` (lines 44-111). -/
def syncResource (m : Manifest) (fs : FS) (agent resource : String)
    (strategy : Strategy) (ts : String) : SyncRet × FS :=
  match lookupStr m.agentCompatibility agent with
  | none => (SyncRet.rFalse, fs)
  | some agentCfg =>
    if FS.existsF fs agentCfg.configDir = false then (SyncRet.rFalse, fs)
    else
      match lookupStr m.sharedResources resource with
      | none => (SyncRet.rFalse, fs)
      | some info =>
        match lookupStr agentCfg.resourceMapping resource with
        | none => (SyncRet.rFalse, fs)
        | some relPath =>
          let source := m.sharedConfigPath ++ info.path
          let target := resolvePath agentCfg.configDir relPath
          let fs1 := FS.mkdirAll fs target.dropLast
          let fs3 := prepareDestResource fs1 target ts
          match strategy with
          | Strategy.symlink =>
            match FS.symlinkTo fs3 target source with
            | some fs4 => (SyncRet.rTrue, fs4)
            | none => (SyncRet.raised, fs3)
          | Strategy.copy =>
            if FS.isDirF fs3 source = true then
              (SyncRet.rTrue, FS.copyTree fs3 source target)
            else
              match FS.copy2 fs3 source target with
              | some fs4 => (SyncRet.rTrue, fs4)
              | none => (SyncRet.raised, fs3)

/-- Loop body sequence of `ConfigSyncer.sync_symlink` (lines 56-78), one
recursion step per `resourceMapping` entry; an uncaught OS error would
propagate and end the loop (`SyncRet.raised`). -/
def syncSymlinkSteps (m : Manifest) (cfgDir : FsPath) (ts : String) :
    FS → List (String × FsPath) → SyncRet × FS
  | fs, [] => (SyncRet.rTrue, fs)
  | fs, e :: rest =>
    match lookupStr m.sharedResources e.1 with
    | none => syncSymlinkSteps m cfgDir ts fs rest
    | some info =>
      let source := m.sharedConfigPath ++ info.path
      let target := resolvePath cfgDir e.2
      let fs1 := FS.mkdirAll fs target.dropLast
      let fs2 := backupIfExists fs1 target ts
      let fs3 := if FS.isSymlinkF fs2 target = true then FS.removeEntry fs2 target else fs2
      match FS.symlinkTo fs3 target source with
      | some fs4 => syncSymlinkSteps m cfgDir ts fs4 rest
      | none => (SyncRet.raised, fs3)

/-- `ConfigSyncer.sync_symlink` (lines 44-80). -/
def syncSymlink (m : Manifest) (fs : FS) (agent : String) (ts : String) : SyncRet × FS :=
  match lookupStr m.agentCompatibility agent with
  | none => (SyncRet.rFalse, fs)
  | some cfg =>
    if FS.existsF fs cfg.configDir = false then (SyncRet.rFalse, fs)
    else syncSymlinkSteps m cfg.configDir ts fs cfg.resourceMapping

/-- Loop body sequence of `ConfigSyncer.sync_copy` (lines 94-116): unlike the
symlink loop there is no removal of a pre-existing link destination before
the copy. -/
def syncCopySteps (m : Manifest) (cfgDir : FsPath) (ts : String) :
    FS → List (String × FsPath) → SyncRet × FS
  | fs, [] => (SyncRet.rTrue, fs)
  | fs, e :: rest =>
    match lookupStr m.sharedResources e.1 with
    | none => syncCopySteps m cfgDir ts fs rest
    | some info =>
      let source := m.sharedConfigPath ++ info.path
      let target := resolvePath cfgDir e.2
      let fs1 := FS.mkdirAll fs target.dropLast
      let fs2 := backupIfExists fs1 target ts
      if FS.isDirF fs2 source = true then
        syncCopySteps m cfgDir ts (FS.copyTree fs2 source target) rest
      else
        match FS.copy2 fs2 source target with
        | some fs3 => syncCopySteps m cfgDir ts fs3 rest
        | none => (SyncRet.raised, fs2)

/-- `ConfigSyncer.sync_copy` (lines 82-118). -/
def syncCopy (m : Manifest) (fs : FS) (agent : String) (ts : String) : SyncRet × FS :=
  match lookupStr m.agentCompatibility agent with
  | none => (SyncRet.rFalse, fs)
  | some cfg =>
    if FS.existsF fs cfg.configDir = false then (SyncRet.rFalse, fs)
    else syncCopySteps m cfg.configDir ts fs cfg.resourceMapping

/-- Strategy dispatch of `ConfigSyncer.sync_all` line 182. -/
def syncAgentFn (m : Manifest) (strategy : Strategy) (fs : FS) (agent : String)
    (ts : String) : SyncRet × FS :=
  match strategy with
  | Strategy.symlink => syncSymlink m fs agent ts
  | Strategy.copy => syncCopy m fs agent ts

/-- The batch loop of `ConfigSyncer.sync_all` (lines 184-187): agents are
handled in order; a `False` return is passed over, a `True` return counts,
and an uncaught exception propagates out, discarding the rest of the
batch. -/
def syncAgents (m : Manifest) (strategy : Strategy) (ts : String) :
    FS → List String → SyncRet × Nat × FS
  | fs, [] => (SyncRet.rTrue, 0, fs)
  | fs, a :: rest =>
    match syncAgentFn m strategy fs a ts with
    | (SyncRet.raised, fs1) => (SyncRet.raised, 0, fs1)
    | (SyncRet.rTrue, fs1) =>
      let r := syncAgents m strategy ts fs1 rest
      (r.1, r.2.1 + 1, r.2.2)
    | (SyncRet.rFalse, fs1) => syncAgents m strategy ts fs1 rest

/-- `ConfigSyncer.sync_all` (lines 178-189): the reported partial-success
count is the middle component. -/
def syncAll (m : Manifest) (fs : FS) (strategy : Strategy) (ts : String) :
    SyncRet × Nat × FS :=
  syncAgents m strategy ts fs m.supportedAgents

/-! ## Concrete fixtures -/

/-- A minimal manifest: one tool `t` with config dir `/cfg`, mapping the
`agents` kind to `/cfg/am`; shared tree at `/sh` with the `agents` kind at
`/sh/agents`. -/
def mBasic : Manifest :=
  { sharedConfigPath := ["sh"]
    supportedAgents := ["t"]
    agentCompatibility :=
      [("t", { configDir := ["cfg"], resourceMapping := [("agents", ["am"])] })]
    sharedResources := [("agents", { path := ["agents"], nestedSkills := [] })] }

/-- A manifest with a `skills` kind: tool `claude-code`, skills stored under
`/sh/skills`. -/
def mSkills : Manifest :=
  { sharedConfigPath := ["sh"]
    supportedAgents := ["claude-code"]
    agentCompatibility :=
      [("claude-code", { configDir := ["cfg"], resourceMapping := [("skills", ["skills"])] })]
    sharedResources := [("skills", { path := ["skills"], nestedSkills := [] })] }

/-- Filesystem for the marker-depth experiment: the skill directory
`/sh/skills/it` holds its only `SKILL.md` four directory levels down, at
`/sh/skills/it/a/b/c/d/SKILL.md`. -/
def fsDeepMarker : FS :=
  [ (["sh"], Entry.dir), (["sh", "skills"], Entry.dir),
    (["sh", "skills", "it"], Entry.dir),
    (["sh", "skills", "it", "a"], Entry.dir),
    (["sh", "skills", "it", "a", "b"], Entry.dir),
    (["sh", "skills", "it", "a", "b", "c"], Entry.dir),
    (["sh", "skills", "it", "a", "b", "c", "d"], Entry.dir),
    (["sh", "skills", "it", "a", "b", "c", "d", "SKILL.md"], Entry.file "marker"),
    (["cfg"], Entry.dir) ]

/-- Filesystem in which the tool's config dir exists but the shared source
`/sh/agents` does not. -/
def fsNoSource : FS := [(["cfg"], Entry.dir)]

/-- Filesystem whose destination `/cfg/am` is a symbolic link to the
(existing, unrelated) directory `/d`; the shared source `/sh/agents` holds
one file. -/
def fsLinkDest : FS :=
  [ (["cfg"], Entry.dir), (["sh"], Entry.dir), (["sh", "agents"], Entry.dir),
    (["sh", "agents", "f.md"], Entry.file "A"), (["d"], Entry.dir),
    (["cfg", "am"], Entry.symlink ["d"]) ]

/-- Filesystem whose destination `/cfg/am` is a symbolic link pointing back
into the shared tree, at `/sh/other`. -/
def fsLinkIntoShared : FS :=
  [ (["cfg"], Entry.dir), (["sh"], Entry.dir), (["sh", "agents"], Entry.dir),
    (["sh", "agents", "f.md"], Entry.file "A"), (["sh", "other"], Entry.dir),
    (["cfg", "am"], Entry.symlink ["sh", "other"]) ]

/-- Batch manifest: agent `a1` maps kind `extra` whose shared path
`/sh/missing` does not exist on disk; agent `a2` maps the healthy `agents`
kind. -/
def mBatch : Manifest :=
  { sharedConfigPath := ["sh"]
    supportedAgents := ["a1", "a2"]
    agentCompatibility :=
      [("a1", { configDir := ["c1"], resourceMapping := [("extra", ["x"])] }),
       ("a2", { configDir := ["c2"], resourceMapping := [("agents", ["am"])] })]
    sharedResources :=
      [("agents", { path := ["agents"], nestedSkills := [] }),
       ("extra", { path := ["missing"], nestedSkills := [] })] }

/-- Filesystem for the batch experiment: both config dirs exist, the
`agents` source exists, the `extra` source does not. -/
def fsBatch : FS :=
  [ (["c1"], Entry.dir), (["c2"], Entry.dir), (["sh"], Entry.dir),
    (["sh", "agents"], Entry.dir), (["sh", "agents", "f.md"], Entry.file "A") ]

/-- Filesystem in which the config dir and shared skills root exist, but the
requested item does not. -/
def fsMissingItem : FS :=
  [(["cfg"], Entry.dir), (["sh"], Entry.dir), (["sh", "skills"], Entry.dir)]

/-- Manifest with one nested skill group `g` at `shared/g` owning `alpha`. -/
def mNested : Manifest :=
  { sharedConfigPath := ["sh"]
    supportedAgents := ["claude-code"]
    agentCompatibility :=
      [("claude-code", { configDir := ["cfg"], resourceMapping := [("skills", ["skills"])] })]
    sharedResources :=
      [("skills",
        { path := ["skills"]
          nestedSkills := [("g", { basePath := ["shared", "g"], skills := ["alpha"] })] })] }

/-- Filesystem for nested resolution: `/sh/skills/alpha` absent, the group
member present at `/sh/skills/shared/g/alpha`. -/
def fsNested : FS :=
  [ (["sh"], Entry.dir), (["sh", "skills"], Entry.dir),
    (["sh", "skills", "shared"], Entry.dir), (["sh", "skills", "shared", "g"], Entry.dir),
    (["sh", "skills", "shared", "g", "alpha"], Entry.dir) ]

/-- Filesystem with a skill whose tool-specific override subdirectory
`.claude/skills/s` exists (and also a `SKILL.md`, which must lose). -/
def fsOverride : FS :=
  [ (["sh"], Entry.dir), (["sh", "skills"], Entry.dir),
    (["sh", "skills", "s"], Entry.dir),
    (["sh", "skills", "s", ".claude"], Entry.dir),
    (["sh", "skills", "s", ".claude", "skills"], Entry.dir),
    (["sh", "skills", "s", ".claude", "skills", "s"], Entry.dir),
    (["sh", "skills", "s", "inner"], Entry.dir),
    (["sh", "skills", "s", "inner", "SKILL.md"], Entry.file "m") ]

/-- Filesystem whose destination `/cfg/skills/it` is a dangling symbolic
link (target `/gone` does not exist); the source item `/sh/skills/it` is a
regular file. -/
def fsDangling : FS :=
  [ (["cfg"], Entry.dir), (["sh"], Entry.dir), (["sh", "skills"], Entry.dir),
    (["sh", "skills", "it"], Entry.file "content"),
    (["cfg", "skills"], Entry.dir),
    (["cfg", "skills", "it"], Entry.symlink ["gone"]) ]

/-- A healthy filesystem for `mBasic`: config dir and shared source
directory (with one file) exist, destination absent. -/
def fsHealthy : FS :=
  [ (["cfg"], Entry.dir), (["sh"], Entry.dir), (["sh", "agents"], Entry.dir),
    (["sh", "agents", "f.md"], Entry.file "A") ]

/-! ## Lookup lemmas for the filesystem model -/

theorem lookup_nil (p : FsPath) : FS.lookup [] p = none := rfl

theorem lookup_cons (a : FsPath × Entry) (fs : FS) (p : FsPath) :
    FS.lookup (a :: fs) p = if a.1 = p then some a.2 else FS.lookup fs p := by
  by_cases h : a.1 = p <;> simp [FS.lookup, List.find?, h]

theorem lookup_append (l1 l2 : FS) (p : FsPath) :
    FS.lookup (l1 ++ l2) p = (FS.lookup l1 p).or (FS.lookup l2 p) := by
  simp only [FS.lookup, List.find?_append]
  cases List.find? (fun e => decide (e.1 = p)) l1 <;> simp

theorem lookup_filter_of_true (fs : FS) (pr : FsPath × Entry → Bool) (q : FsPath)
    (h : ∀ e : FsPath × Entry, e.1 = q → pr e = true) :
    FS.lookup (fs.filter pr) q = FS.lookup fs q := by
  induction fs with
  | nil => rfl
  | cons a fs ih =>
    by_cases ha : a.1 = q
    · rw [List.filter_cons, h a ha]
      simp [lookup_cons, ha]
    · rw [List.filter_cons]
      by_cases hpa : pr a = true
      · simp only [hpa, if_true, lookup_cons, ha, if_false, ih]
      · simp only [Bool.not_eq_true] at hpa
        simp [hpa, lookup_cons, ha, ih]

theorem lookup_filter_of_false (fs : FS) (pr : FsPath × Entry → Bool) (q : FsPath)
    (h : ∀ e : FsPath × Entry, e.1 = q → pr e = false) :
    FS.lookup (fs.filter pr) q = none := by
  induction fs with
  | nil => rfl
  | cons a fs ih =>
    by_cases ha : a.1 = q
    · rw [List.filter_cons, h a ha]
      simpa using ih
    · rw [List.filter_cons]
      by_cases hpa : pr a = true
      · simp only [hpa, if_true, lookup_cons, ha, if_false, ih]
      · simp only [Bool.not_eq_true] at hpa
        simp [hpa, ih]

theorem lookup_removeEntry_self (fs : FS) (p : FsPath) :
    FS.lookup (FS.removeEntry fs p) p = none := by
  apply lookup_filter_of_false
  intro e he
  simp [he]

theorem lookup_removeEntry_ne (fs : FS) (p q : FsPath) (h : p ≠ q) :
    FS.lookup (FS.removeEntry fs p) q = FS.lookup fs q := by
  apply lookup_filter_of_true
  intro e he
  subst he
  simp only [decide_eq_true_eq]
  exact fun hh => h hh.symm

theorem lookup_set_self (fs : FS) (p : FsPath) (v : Entry) :
    FS.lookup (FS.set fs p v) p = some v := by
  simp [FS.set, lookup_cons]

theorem lookup_set_ne (fs : FS) (p q : FsPath) (v : Entry) (h : p ≠ q) :
    FS.lookup (FS.set fs p v) q = FS.lookup fs q := by
  simp [FS.set, lookup_cons, h, lookup_removeEntry_ne fs p q h]

theorem lookup_removeTree_under (fs : FS) (root q : FsPath) (h : root <+: q) :
    FS.lookup (FS.removeTree fs root) q = none := by
  apply lookup_filter_of_false
  intro e he
  simp [he, h]

theorem lookup_removeTree_outside (fs : FS) (root q : FsPath) (h : ¬ root <+: q) :
    FS.lookup (FS.removeTree fs root) q = FS.lookup fs q := by
  apply lookup_filter_of_true
  intro e he
  subst he
  simp [h]

theorem lookup_subtreeEntries (fs : FS) (root q : FsPath) (h : root <+: q) :
    FS.lookup (FS.subtreeEntries fs root) q = FS.lookup fs q := by
  apply lookup_filter_of_true
  intro e he
  subst he
  simp [h]

theorem subtreeEntries_sound (fs : FS) (root : FsPath) :
    ∀ e ∈ FS.subtreeEntries fs root, root <+: e.1 := by
  intro e he
  have := (List.mem_filter.mp he).2
  simpa using this

theorem eq_append_drop_of_pfx {l p : FsPath} (h : l <+: p) :
    l ++ p.drop l.length = p :=
  List.prefix_iff_eq_append.mp h

theorem lookup_retarget_none (src dst : FsPath) (l : List (FsPath × Entry)) (q : FsPath)
    (hq : ¬ dst <+: q) :
    FS.lookup (retarget src dst l) q = none := by
  induction l with
  | nil => rfl
  | cons e l ih =>
    simp only [retarget, List.map_cons, lookup_cons]
    have hne : ¬ dst ++ e.1.drop src.length = q := by
      intro hh
      exact hq ⟨e.1.drop src.length, hh⟩
    simp only [hne, if_false]
    exact ih

theorem lookup_retarget_rel (src dst : FsPath) (l : List (FsPath × Entry)) (rel : FsPath)
    (hl : ∀ e ∈ l, src <+: e.1) :
    FS.lookup (retarget src dst l) (dst ++ rel) = FS.lookup l (src ++ rel) := by
  induction l with
  | nil => rfl
  | cons e l ih =>
    have hsrc : src <+: e.1 := hl e (List.mem_cons_self e l)
    have hdecomp : src ++ e.1.drop src.length = e.1 := eq_append_drop_of_pfx hsrc
    simp only [retarget, List.map_cons, lookup_cons]
    by_cases hcase : e.1 = src ++ rel
    · have : dst ++ e.1.drop src.length = dst ++ rel := by
        congr 1
        have := hdecomp.trans hcase
        exact List.append_cancel_left this
      simp [this, hcase]
    · have : ¬ dst ++ e.1.drop src.length = dst ++ rel := by
        intro hh
        apply hcase
        have hd : e.1.drop src.length = rel := List.append_cancel_left hh
        rw [← hdecomp, hd]
      simp only [this, if_false, hcase, if_false]
      exact ih (fun x hx => hl x (List.mem_cons_of_mem e hx))

theorem lookup_moveTree_under_src (fs : FS) (src dst q : FsPath)
    (h1 : src <+: q) (h2 : ¬ dst <+: q) :
    FS.lookup (FS.moveTree fs src dst) q = none := by
  simp only [FS.moveTree, lookup_append,
    lookup_retarget_none src dst _ q h2, Option.none_or]
  exact lookup_removeTree_under fs src q h1

theorem lookup_moveTree_outside (fs : FS) (src dst q : FsPath)
    (h1 : ¬ src <+: q) (h2 : ¬ dst <+: q) :
    FS.lookup (FS.moveTree fs src dst) q = FS.lookup fs q := by
  simp only [FS.moveTree, lookup_append,
    lookup_retarget_none src dst _ q h2, Option.none_or]
  exact lookup_removeTree_outside fs src q h1

theorem lookup_copyTree_rel (fs : FS) (src dst rel : FsPath)
    (hs : FS.resolveTop fs src = src) (hd : FS.resolveTop fs dst = dst) :
    FS.lookup (FS.copyTree fs src dst) (dst ++ rel) =
      (FS.lookup fs (src ++ rel)).or (FS.lookup fs (dst ++ rel)) := by
  simp only [FS.copyTree, hs, hd, lookup_append]
  rw [lookup_retarget_rel src dst _ rel (subtreeEntries_sound fs src),
    lookup_subtreeEntries fs src _ ⟨rel, rfl⟩]

theorem lookup_copyTree_outside (fs : FS) (src dst q : FsPath)
    (hd : ¬ FS.resolveTop fs dst <+: q) :
    FS.lookup (FS.copyTree fs src dst) q = FS.lookup fs q := by
  simp only [FS.copyTree, lookup_append, lookup_retarget_none _ _ _ q hd, Option.none_or]

theorem ancestorPaths_pfx (p : FsPath) : ∀ a ∈ ancestorPaths p, a <+: p := by
  intro a ha
  simp only [ancestorPaths, List.mem_map, List.mem_range] at ha
  obtain ⟨i, _, rfl⟩ := ha
  exact List.take_prefix _ _

theorem lookup_mkdir_foldl_ne (l : List FsPath) (fs : FS) (q : FsPath)
    (h : ∀ a ∈ l, a ≠ q) :
    FS.lookup
      (l.foldl
        (fun acc r => if (FS.lookup acc r).isSome then acc else FS.set acc r Entry.dir) fs)
      q = FS.lookup fs q := by
  induction l generalizing fs with
  | nil => rfl
  | cons a l ih =>
    simp only [List.foldl_cons]
    rw [ih _ (fun x hx => h x (List.mem_cons_of_mem a hx))]
    have ha : a ≠ q := h a (List.mem_cons_self a l)
    by_cases hs : (FS.lookup fs a).isSome = true
    · simp [hs]
    · simp only [Bool.not_eq_true] at hs
      simp [hs, lookup_set_ne fs a q Entry.dir ha]

theorem lookup_mkdir_foldl_some (l : List FsPath) (fs : FS) (q : FsPath) (e : Entry)
    (h : FS.lookup fs q = some e) :
    FS.lookup
      (l.foldl
        (fun acc r => if (FS.lookup acc r).isSome then acc else FS.set acc r Entry.dir) fs)
      q = some e := by
  induction l generalizing fs with
  | nil => exact h
  | cons a l ih =>
    simp only [List.foldl_cons]
    apply ih
    by_cases hs : (FS.lookup fs a).isSome = true
    · simpa [hs] using h
    · simp only [Bool.not_eq_true] at hs
      have ha : a ≠ q := by
        intro hh
        subst hh
        rw [h] at hs
        simp at hs
      simpa [hs, lookup_set_ne fs a q Entry.dir ha] using h

theorem lookup_mkdirAll_not_pfx (fs : FS) (p q : FsPath) (h : ¬ q <+: p) :
    FS.lookup (FS.mkdirAll fs p) q = FS.lookup fs q := by
  simp only [FS.mkdirAll]
  apply lookup_mkdir_foldl_ne
  intro a ha haq
  subst haq
  exact h (ancestorPaths_pfx p a ha)

theorem lookup_mkdirAll_some (fs : FS) (p q : FsPath) (e : Entry)
    (h : FS.lookup fs q = some e) :
    FS.lookup (FS.mkdirAll fs p) q = some e := by
  simp only [FS.mkdirAll]
  exact lookup_mkdir_foldl_some _ _ _ _ h

theorem not_append_singleton_pfx (l : FsPath) (a : String) : ¬ l ++ [a] <+: l := by
  intro h
  have := h.length_le
  simp at this

theorem append_ne_of_ne_nil (l r : FsPath) (h : r ≠ []) : l ++ r ≠ l := by
  intro hh
  have h2 : l ++ r = l ++ [] := by simpa using hh
  exact h (List.append_cancel_left h2)

theorem backupPath_length (p : FsPath) (ts : String) (hne : p ≠ []) :
    (backupPath p ts).length = p.length := by
  have hpos : 0 < p.length := List.length_pos.mpr hne
  simp only [backupPath, List.length_append, List.length_dropLast, List.length_cons,
    List.length_nil]
  omega

theorem backupPath_ne (p : FsPath) (ts : String) : backupPath p ts ≠ p := by
  rcases eq_or_ne p [] with rfl | hne
  · simp [backupPath]
  · intro heq
    have hlast : p.dropLast ++ [p.getLast hne] = p := List.dropLast_append_getLast hne
    have h2 : p.dropLast ++ [backupName p ts] = p.dropLast ++ [p.getLast hne] := by
      simpa [backupPath] using heq.trans hlast.symm
    have h3 : backupName p ts = p.getLast hne := by
      simpa using List.append_cancel_left h2
    have hg : p.getLastD "" = p.getLast hne := by
      simp [List.getLastD_eq_getLast?, List.getLast?_eq_getLast p hne]
    have hlen := congrArg String.length h3
    have h8 : (".backup." : String).length = 8 := by decide
    rw [backupName, String.length_append, String.length_append, h8, hg] at hlen
    omega

theorem backupPath_not_pfx (p : FsPath) (ts : String) : ¬ backupPath p ts <+: p := by
  intro h
  rcases eq_or_ne p [] with rfl | hne
  · have := h.length_le
    simp [backupPath] at this
  · exact backupPath_ne p ts (h.eq_of_length (backupPath_length p ts hne))

theorem not_pfx_backupPath (p : FsPath) (ts : String) (hne : p ≠ []) :
    ¬ p <+: backupPath p ts := by
  intro h
  have heq : p = backupPath p ts := h.eq_of_length (backupPath_length p ts hne).symm
  exact backupPath_ne p ts heq.symm

theorem prepare_of_none (fs : FS) (p : FsPath) (ts : String)
    (h : FS.lookup fs p = none) :
    prepareDestResource fs p ts = fs := by
  have he : FS.existsF fs p = false := by simp [FS.existsF, h]
  have hs : FS.isSymlinkF fs p = false := by simp [FS.isSymlinkF, h]
  simp [prepareDestResource, backupIfExists, he, hs]

theorem prepare_of_symlink (fs : FS) (p t : FsPath) (ts : String)
    (h : FS.lookup fs p = some (Entry.symlink t)) :
    prepareDestResource fs p ts = FS.removeEntry fs p := by
  have hs : FS.isSymlinkF fs p = true := by simp [FS.isSymlinkF, h]
  simp [prepareDestResource, backupIfExists, hs]

theorem prepare_of_plain (fs : FS) (p : FsPath) (ts : String)
    (hex : FS.existsF fs p = true) (hsym : FS.isSymlinkF fs p = false) :
    prepareDestResource fs p ts = FS.moveTree fs p (backupPath p ts) := by
  have hmove : FS.lookup (FS.moveTree fs p (backupPath p ts)) p = none :=
    lookup_moveTree_under_src fs p _ p List.prefix_rfl (backupPath_not_pfx p ts)
  have hsym2 : FS.isSymlinkF (FS.moveTree fs p (backupPath p ts)) p = false := by
    simp [FS.isSymlinkF, hmove]
  simp [prepareDestResource, backupIfExists, hex, hsym, hsym2]

theorem prepare_lookup_self (fs : FS) (p : FsPath) (ts : String) :
    FS.lookup (prepareDestResource fs p ts) p = none := by
  cases hcase : FS.lookup fs p with
  | none => rw [prepare_of_none fs p ts hcase]; exact hcase
  | some e =>
    cases e with
    | symlink t =>
      rw [prepare_of_symlink fs p t ts hcase]
      exact lookup_removeEntry_self fs p
    | file c =>
      have hex : FS.existsF fs p = true := by simp [FS.existsF, hcase]
      have hsym : FS.isSymlinkF fs p = false := by simp [FS.isSymlinkF, hcase]
      rw [prepare_of_plain fs p ts hex hsym]
      exact lookup_moveTree_under_src fs p _ p List.prefix_rfl (backupPath_not_pfx p ts)
    | dir =>
      have hex : FS.existsF fs p = true := by simp [FS.existsF, hcase]
      have hsym : FS.isSymlinkF fs p = false := by simp [FS.isSymlinkF, hcase]
      rw [prepare_of_plain fs p ts hex hsym]
      exact lookup_moveTree_under_src fs p _ p List.prefix_rfl (backupPath_not_pfx p ts)

theorem backupSingle_of_dangling (fs : FS) (p t : FsPath) (ts : String)
    (h : FS.lookup fs p = some (Entry.symlink t)) (ht : FS.lookup fs t = none) :
    backupIfExistsSingle fs p ts = fs := by
  have he : FS.existsF fs p = false := by simp [FS.existsF, h, ht]
  simp [backupIfExistsSingle, he]

theorem backupSingle_of_live_symlink (fs : FS) (p t : FsPath) (ts : String)
    (h : FS.lookup fs p = some (Entry.symlink t)) (ht : (FS.lookup fs t).isSome = true) :
    backupIfExistsSingle fs p ts = FS.removeEntry fs p := by
  have he : FS.existsF fs p = true := by
    simp only [FS.existsF, h]
    exact ht
  have hs : FS.isSymlinkF fs p = true := by simp [FS.isSymlinkF, h]
  simp [backupIfExistsSingle, he, hs]

theorem backupSingle_of_plain (fs : FS) (p : FsPath) (ts : String)
    (hex : FS.existsF fs p = true) (hsym : FS.isSymlinkF fs p = false) :
    backupIfExistsSingle fs p ts = FS.moveTree fs p (backupPath p ts) := by
  simp [backupIfExistsSingle, hex, hsym]

theorem symlinkTo_some (fs : FS) (dst src : FsPath) (fs' : FS)
    (h : FS.symlinkTo fs dst src = some fs') :
    fs' = FS.set fs dst (Entry.symlink src) := by
  simp only [FS.symlinkTo] at h
  by_cases hs : (FS.lookup fs dst).isSome = true
  · simp [hs] at h
  · simp only [Bool.not_eq_true] at hs
    simp only [hs, Bool.false_eq_true, if_false, Option.some.injEq] at h
    exact h.symm

theorem symlinkTo_of_none (fs : FS) (dst src : FsPath)
    (h : FS.lookup fs dst = none) :
    FS.symlinkTo fs dst src = some (FS.set fs dst (Entry.symlink src)) := by
  simp [FS.symlinkTo, h]

theorem pfx_append (l r : FsPath) : l <+: l ++ r := ⟨r, rfl⟩

theorem dropLast_pfx (l : FsPath) : l.dropLast <+: l := List.dropLast_prefix l

theorem not_pfx_of_both {a b q : FsPath} (hq1 : a <+: q)
    (hab1 : ¬ a <+: b) (hab2 : ¬ b <+: a) : ¬ b <+: q := by
  intro hc
  rcases List.prefix_or_prefix_of_prefix hq1 hc with h | h
  · exact hab1 h
  · exact hab2 h

theorem prepare_lookup_outside (fs : FS) (p q : FsPath) (ts : String)
    (h1 : ¬ p <+: q) (h2 : ¬ backupPath p ts <+: q) :
    FS.lookup (prepareDestResource fs p ts) q = FS.lookup fs q := by
  have hpq : p ≠ q := by
    intro hh
    exact h1 (hh ▸ List.prefix_rfl)
  cases hcase : FS.lookup fs p with
  | none => rw [prepare_of_none fs p ts hcase]
  | some e =>
    cases e with
    | symlink t =>
      rw [prepare_of_symlink fs p t ts hcase, lookup_removeEntry_ne fs p q hpq]
    | file c =>
      have hex : FS.existsF fs p = true := by simp [FS.existsF, hcase]
      have hsym : FS.isSymlinkF fs p = false := by simp [FS.isSymlinkF, hcase]
      rw [prepare_of_plain fs p ts hex hsym, lookup_moveTree_outside fs p _ q h1 h2]
    | dir =>
      have hex : FS.existsF fs p = true := by simp [FS.existsF, hcase]
      have hsym : FS.isSymlinkF fs p = false := by simp [FS.isSymlinkF, hcase]
      rw [prepare_of_plain fs p ts hex hsym, lookup_moveTree_outside fs p _ q h1 h2]

theorem lookup_none_of_subtree_nil (fs : FS) (root q : FsPath)
    (h : FS.subtreeEntries fs root = []) (hq : root <+: q) :
    FS.lookup fs q = none := by
  rw [← lookup_subtreeEntries fs root q hq, h]
  rfl

theorem copy2_some (fs : FS) (src dst : FsPath) (fs' : FS)
    (h : FS.copy2 fs src dst = some fs') :
    ∃ e, FS.lookup fs (FS.resolveTop fs src) = some e ∧
      fs' = FS.set fs (FS.resolveTop fs dst) e := by
  simp only [FS.copy2] at h
  cases hc : FS.lookup fs (FS.resolveTop fs src) with
  | none => rw [hc] at h; cases h
  | some e =>
    rw [hc] at h
    simp only [Option.some.injEq] at h
    exact ⟨e, rfl, h.symm⟩

theorem syncResource_eq_symlink (m : Manifest) (fs : FS) (agent kind ts : String)
    (cfg : AgentConfig) (info : ResourceInfo) (relPath : FsPath)
    (h1 : lookupStr m.agentCompatibility agent = some cfg)
    (h3 : lookupStr m.sharedResources kind = some info)
    (hm : lookupStr cfg.resourceMapping kind = some relPath)
    (hcd : FS.existsF fs cfg.configDir = true) :
    syncResource m fs agent kind Strategy.symlink ts =
      (SyncRet.rTrue,
        FS.set
          (prepareDestResource
            (FS.mkdirAll fs (resolvePath cfg.configDir relPath).dropLast)
            (resolvePath cfg.configDir relPath) ts)
          (resolvePath cfg.configDir relPath)
          (Entry.symlink (m.sharedConfigPath ++ info.path))) := by
  have hclear := prepare_lookup_self
    (FS.mkdirAll fs (resolvePath cfg.configDir relPath).dropLast)
    (resolvePath cfg.configDir relPath) ts
  simp [syncResource, h1, h3, hm, hcd,
    symlinkTo_of_none _ _ (m.sharedConfigPath ++ info.path) hclear]

theorem syncResource_eq_copy_dir (m : Manifest) (fs : FS) (agent kind ts : String)
    (cfg : AgentConfig) (info : ResourceInfo) (relPath : FsPath)
    (h1 : lookupStr m.agentCompatibility agent = some cfg)
    (h3 : lookupStr m.sharedResources kind = some info)
    (hm : lookupStr cfg.resourceMapping kind = some relPath)
    (hcd : FS.existsF fs cfg.configDir = true)
    (hdir : FS.isDirF
      (prepareDestResource
        (FS.mkdirAll fs (resolvePath cfg.configDir relPath).dropLast)
        (resolvePath cfg.configDir relPath) ts)
      (m.sharedConfigPath ++ info.path) = true) :
    syncResource m fs agent kind Strategy.copy ts =
      (SyncRet.rTrue,
        FS.copyTree
          (prepareDestResource
            (FS.mkdirAll fs (resolvePath cfg.configDir relPath).dropLast)
            (resolvePath cfg.configDir relPath) ts)
          (m.sharedConfigPath ++ info.path)
          (resolvePath cfg.configDir relPath)) := by
  simp [syncResource, h1, h3, hm, hcd, hdir]

theorem syncResource_eq_copy_nondir (m : Manifest) (fs : FS) (agent kind ts : String)
    (cfg : AgentConfig) (info : ResourceInfo) (relPath : FsPath)
    (h1 : lookupStr m.agentCompatibility agent = some cfg)
    (h3 : lookupStr m.sharedResources kind = some info)
    (hm : lookupStr cfg.resourceMapping kind = some relPath)
    (hcd : FS.existsF fs cfg.configDir = true)
    (hdir : FS.isDirF
      (prepareDestResource
        (FS.mkdirAll fs (resolvePath cfg.configDir relPath).dropLast)
        (resolvePath cfg.configDir relPath) ts)
      (m.sharedConfigPath ++ info.path) = false) :
    syncResource m fs agent kind Strategy.copy ts =
      (match
        FS.copy2
          (prepareDestResource
            (FS.mkdirAll fs (resolvePath cfg.configDir relPath).dropLast)
            (resolvePath cfg.configDir relPath) ts)
          (m.sharedConfigPath ++ info.path)
          (resolvePath cfg.configDir relPath) with
       | some fs4 => (SyncRet.rTrue, fs4)
       | none =>
        (SyncRet.raised,
          prepareDestResource
            (FS.mkdirAll fs (resolvePath cfg.configDir relPath).dropLast)
            (resolvePath cfg.configDir relPath) ts)) := by
  simp [syncResource, h1, h3, hm, hcd, hdir]

/-! ## Theorems -/

/-- Claim C1, behaviour of the code at the failing input: with the only
`SKILL.md` four directory levels below the candidate skill directory, the
marker search still finds it (the `for depth in range(3)` loop re-runs the
same unbounded `rglob`, bounding nothing), and resolution retargets the
source to the marker's containing directory instead of leaving the candidate
unmodified with a `MarkerFileNotFound` diagnostic. -/
theorem marker_depth4_is_found :
    findSkillMd fsDeepMarker ["sh", "skills", "it"] =
      some ["sh", "skills", "it", "a", "b", "c", "d", "SKILL.md"] ∧
    itemSource mSkills fsDeepMarker "claude-code" "skills" "it" =
      ["sh", "skills", "it", "a", "b", "c", "d"] := by
  constructor <;> decide

/-- Claim C2, counterexample: the resolved source `/sh/agents` does not
exist, yet `sync_resource` with the link strategy reports success and
mutates the filesystem, leaving a dangling link at the destination — it
never checks the source and does not fail with `SourceNotFound`. -/
theorem source_missing_still_mutates :
    FS.existsF fsNoSource ["sh", "agents"] = false ∧
    (syncResource mBasic fsNoSource "t" "agents" Strategy.symlink "ts1").1 =
      SyncRet.rTrue ∧
    FS.lookup (syncResource mBasic fsNoSource "t" "agents" Strategy.symlink "ts1").2
        ["cfg", "am"] =
      some (Entry.symlink ["sh", "agents"]) := by
  refine ⟨rfl, rfl, rfl⟩

/-- Claim C3, counterexample: under `sync-config.py`'s copy strategy a
destination that is a symbolic link is not removed before the write — the
operation completes and the link entry is still there afterwards (the copy
went through it). -/
theorem copy_strategy_keeps_link :
    FS.isSymlinkF fsLinkDest ["cfg", "am"] = true ∧
    (syncCopy mBasic fsLinkDest "t" "ts1").1 = SyncRet.rTrue ∧
    FS.lookup (syncCopy mBasic fsLinkDest "t" "ts1").2 ["cfg", "am"] =
      some (Entry.symlink ["d"]) := by
  refine ⟨rfl, rfl, rfl⟩

/-- Claim C4, counterexample: when the destination is a pre-existing
symbolic link pointing into the shared source tree, `sync-config.py`'s copy
strategy writes through the link and creates a new file inside the shared
tree at `/sh/other/f.md`. -/
theorem copy_through_link_writes_shared_tree :
    (["sh"] <+: (["sh", "other", "f.md"] : FsPath)) ∧
    FS.lookup fsLinkIntoShared ["sh", "other", "f.md"] = none ∧
    FS.lookup (syncCopy mBasic fsLinkIntoShared "t" "ts1").2 ["sh", "other", "f.md"] =
      some (Entry.file "A") := by
  refine ⟨⟨["other", "f.md"], rfl⟩, rfl, rfl⟩

/-- Claim C5, counterexample: an OS-level failure while syncing the pair
(`a1`, `extra`) — duplicating a missing source raises — aborts the whole
batch: the result is an uncaught exception, agent `a2` is never synced
(nothing appears at `/c2/am`), even though `a2` on its own would have
succeeded. -/
theorem pair_failure_aborts_batch :
    (syncAll mBatch fsBatch Strategy.copy "ts1").1 = SyncRet.raised ∧
    FS.lookup (syncAll mBatch fsBatch Strategy.copy "ts1").2.2 ["c2", "am"] = none ∧
    (syncAgentFn mBatch Strategy.copy fsBatch "a2" "ts1").1 = SyncRet.rTrue := by
  refine ⟨rfl, rfl, rfl⟩

/-- Claim C2 (amended): in the single-item syncer, `sync_item` checks the
resolved source before any mutation: when the source does not exist the call
returns `False` and the filesystem is returned exactly as it was — no parent
directory creation, no backup, no link or copy. (The resource-level syncer,
by contrast, performs no such check: see the counterexample.) -/
theorem sync_item_source_missing_no_mutation
    (m : Manifest) (fs : FS) (agent resourceType itemName ts : String)
    (strategy : Strategy) (cfg : AgentConfig) (info : ResourceInfo)
    (h1 : lookupStr m.agentCompatibility agent = some cfg)
    (h2 : FS.existsF fs cfg.configDir = true)
    (h3 : lookupStr m.sharedResources resourceType = some info)
    (h5 : FS.existsF fs (itemSource m fs agent resourceType itemName) = false) :
    syncItem m fs agent resourceType itemName strategy ts = (SyncRet.rFalse, fs) := by
  simp [syncItem, h1, h2, h3, h5]

theorem sync_item_source_missing_no_mutation_witness :
    syncItem mSkills fsMissingItem "claude-code" "skills" "nope" Strategy.symlink "ts1" =
      (SyncRet.rFalse, fsMissingItem) :=
  sync_item_source_missing_no_mutation mSkills fsMissingItem "claude-code" "skills"
    "nope" "ts1" Strategy.symlink
    { configDir := ["cfg"], resourceMapping := [("skills", ["skills"])] }
    { path := ["skills"], nestedSkills := [] }
    (by decide) (by decide) (by decide) (by decide)

/-- Claim C3 (amended): in the destination-preparation step shared by
`sync-resource.py` (and used by `sync-single.py`'s backup), a live symbolic
link destination is removed and nothing else changes — in particular no
backup artifact is created — while an existing non-link destination is
renamed to `<name>.backup.<timestamp>`. (`sync-config.py`'s copy strategy
does not remove a link destination: see the counterexample.) -/
theorem prepare_link_removed_no_backup (fs : FS) (p t : FsPath) (ts : String) :
    (FS.lookup fs p = some (Entry.symlink t) → (FS.lookup fs t).isSome = true →
      prepareDestResource fs p ts = FS.removeEntry fs p ∧
      backupIfExistsSingle fs p ts = FS.removeEntry fs p) ∧
    (FS.existsF fs p = true → FS.isSymlinkF fs p = false →
      prepareDestResource fs p ts = FS.moveTree fs p (backupPath p ts) ∧
      backupIfExistsSingle fs p ts = FS.moveTree fs p (backupPath p ts)) := by
  constructor
  · intro h ht
    exact ⟨prepare_of_symlink fs p t ts h, backupSingle_of_live_symlink fs p t ts h ht⟩
  · intro hex hsym
    exact ⟨prepare_of_plain fs p ts hex hsym, backupSingle_of_plain fs p ts hex hsym⟩

theorem prepare_link_removed_no_backup_witness :
    prepareDestResource fsLinkDest ["cfg", "am"] "ts1" =
      FS.removeEntry fsLinkDest ["cfg", "am"] ∧
    backupIfExistsSingle fsLinkDest ["cfg", "am"] "ts1" =
      FS.removeEntry fsLinkDest ["cfg", "am"] :=
  (prepare_link_removed_no_backup fsLinkDest ["cfg", "am"] ["d"] "ts1").1
    (by decide) (by decide)

/-- Claim C5 (amended): the batch loop handles tools sequentially in
configuration order; a tool whose sync function returns `False` (unknown
tool or missing config directory) is passed over without aborting — the
batch continues with the remaining tools and the count is unchanged — and a
successful tool adds one to the reported success count. (An uncaught OS
error in one (tool, resource) pair, however, aborts the whole batch: see the
counterexample.) -/
theorem batch_skip_continues (m : Manifest) (strategy : Strategy) (ts : String)
    (fs fs1 : FS) (a : String) (rest : List String) :
    (syncAgentFn m strategy fs a ts = (SyncRet.rFalse, fs1) →
      syncAgents m strategy ts fs (a :: rest) = syncAgents m strategy ts fs1 rest) ∧
    (syncAgentFn m strategy fs a ts = (SyncRet.rTrue, fs1) →
      syncAgents m strategy ts fs (a :: rest) =
        ((syncAgents m strategy ts fs1 rest).1,
          (syncAgents m strategy ts fs1 rest).2.1 + 1,
          (syncAgents m strategy ts fs1 rest).2.2)) := by
  constructor <;> intro h <;> simp [syncAgents, h]

theorem batch_skip_continues_witness :
    syncAgents mBatch Strategy.symlink "ts1" fsBatch ("zz" :: ["a2"]) =
      syncAgents mBatch Strategy.symlink "ts1" fsBatch ["a2"] :=
  (batch_skip_continues mBatch Strategy.symlink "ts1" fsBatch fsBatch "zz" ["a2"]).1
    (by decide)

/-- Claim C6: for kind skills, when `base/itemName` does not exist and the
first enumerated nested group whose member list contains the item is `g`,
the source becomes `base / g.basePath / itemName`. -/
theorem nested_group_resolution (m : Manifest) (fs : FS) (sourceBase : FsPath)
    (itemName gname : String) (g : NestedGroup)
    (h1 : FS.existsF fs (sourceBase ++ [itemName]) = false)
    (h2 : (skillsNestedGroups m).find? (fun e => decide (itemName ∈ e.2.skills)) =
      some (gname, g)) :
    nestedSource m fs "skills" sourceBase itemName =
      sourceBase ++ g.basePath ++ [itemName] := by
  simp [nestedSource, h1, h2]

theorem nested_group_resolution_witness :
    nestedSource mNested fsNested "skills" ["sh", "skills"] "alpha" =
      ["sh", "skills", "shared", "g", "alpha"] :=
  nested_group_resolution mNested fsNested ["sh", "skills"] "alpha" "g"
    { basePath := ["shared", "g"], skills := ["alpha"] } (by decide) (by decide)

/-- Claim C7: for a directory source of kind skills and a tool with an
override segment, the override subdirectory
`source/segment/skills/itemName`, when it is a directory, replaces the
source — taking precedence over the marker search, which runs only when the
override path is not a directory. -/
theorem override_precedence (fs : FS) (agent itemName : String) (source : FsPath)
    (sub : String)
    (hdir : FS.isDirF fs source = true)
    (hmap : lookupStr agentDirMap agent = some sub) :
    (FS.isDirF fs (source ++ [sub, "skills", itemName]) = true →
      overrideOrMarkerSource fs agent "skills" itemName source =
        source ++ [sub, "skills", itemName]) ∧
    (FS.isDirF fs (source ++ [sub, "skills", itemName]) = false →
      overrideOrMarkerSource fs agent "skills" itemName source =
        (match findSkillMd fs source with
         | some skillMd => skillMd.dropLast
         | none => source)) := by
  constructor <;> intro h <;> simp [overrideOrMarkerSource, hdir, hmap, h]

theorem override_precedence_witness :
    overrideOrMarkerSource fsOverride "claude-code" "skills" "s" ["sh", "skills", "s"] =
      ["sh", "skills", "s", ".claude", "skills", "s"] :=
  (override_precedence fsOverride "claude-code" "s" ["sh", "skills", "s"] ".claude"
    (by decide) (by decide)).1 (by decide)

/-- Claim C10: when the destination of a single-item link sync is a dangling
symbolic link, the backup step treats it as non-existent — it neither
removes nor backs it up, so the link entry is still there — and the
subsequent link creation fails (`symlink_to` raises on the occupied
path). -/
theorem dangling_link_dest_fails (m : Manifest) (fs : FS)
    (agent kind itemName ts : String) (cfg : AgentConfig) (info : ResourceInfo)
    (relPath r : FsPath)
    (h1 : lookupStr m.agentCompatibility agent = some cfg)
    (h2 : FS.existsF fs cfg.configDir = true)
    (h3 : lookupStr m.sharedResources kind = some info)
    (hsrc : FS.existsF fs (itemSource m fs agent kind itemName) = true)
    (hm : lookupStr cfg.resourceMapping kind = some relPath)
    (hlink : FS.lookup fs (resolvePath cfg.configDir relPath ++ [itemName]) =
      some (Entry.symlink r))
    (hdang : FS.lookup fs r = none)
    (hr : ¬ r <+: resolvePath cfg.configDir relPath) :
    (syncItem m fs agent kind itemName Strategy.symlink ts).1 = SyncRet.raised ∧
    FS.lookup (syncItem m fs agent kind itemName Strategy.symlink ts).2
        (resolvePath cfg.configDir relPath ++ [itemName]) =
      some (Entry.symlink r) := by
  have htb : ¬ resolvePath cfg.configDir relPath ++ [itemName] <+:
      resolvePath cfg.configDir relPath :=
    not_append_singleton_pfx _ _
  have h1' : FS.lookup (FS.mkdirAll fs (resolvePath cfg.configDir relPath))
      (resolvePath cfg.configDir relPath ++ [itemName]) = some (Entry.symlink r) := by
    rw [lookup_mkdirAll_not_pfx fs _ _ htb]
    exact hlink
  have h2' : FS.lookup (FS.mkdirAll fs (resolvePath cfg.configDir relPath)) r = none := by
    rw [lookup_mkdirAll_not_pfx fs _ _ hr]
    exact hdang
  have hback := backupSingle_of_dangling _ _ _ ts h1' h2'
  have hlinkto : FS.symlinkTo (FS.mkdirAll fs (resolvePath cfg.configDir relPath))
      (resolvePath cfg.configDir relPath ++ [itemName])
      (itemSource m fs agent kind itemName) = none := by
    simp [FS.symlinkTo, h1']
  constructor
  · simp [syncItem, h1, h2, h3, hsrc, hm, hback, hlinkto]
  · simp [syncItem, h1, h2, h3, hsrc, hm, hback, hlinkto, h1']

theorem dangling_link_dest_fails_witness :
    (syncItem mSkills fsDangling "claude-code" "skills" "it" Strategy.symlink "ts1").1 =
      SyncRet.raised ∧
    FS.lookup (syncItem mSkills fsDangling "claude-code" "skills" "it"
        Strategy.symlink "ts1").2 ["cfg", "skills", "it"] =
      some (Entry.symlink ["gone"]) :=
  dangling_link_dest_fails mSkills fsDangling "claude-code" "skills" "it" "ts1"
    { configDir := ["cfg"], resourceMapping := [("skills", ["skills"])] }
    { path := ["skills"], nestedSkills := [] } ["skills"] ["gone"]
    (by decide) (by decide) (by decide) (by decide) (by decide) (by decide) (by decide)
    (by decide)

/-- Claim C8: link-strategy sync, on success, leaves the destination a
symbolic link whose (absolute) target is the resolved source: for the
resource-level syncer the destination `configDir/mapping` points at
`sharedRoot/kindPath`, and for the single-item syncer the destination
`configDir/mapping/item` points at the fully resolved item source. -/
theorem link_strategy_dest_is_link (m : Manifest) (fs : FS) (agent kind ts : String)
    (cfg : AgentConfig) (relPath : FsPath)
    (h1 : lookupStr m.agentCompatibility agent = some cfg)
    (hm : lookupStr cfg.resourceMapping kind = some relPath) :
    (∀ info, lookupStr m.sharedResources kind = some info →
      (syncResource m fs agent kind Strategy.symlink ts).1 = SyncRet.rTrue →
        FS.lookup (syncResource m fs agent kind Strategy.symlink ts).2
            (resolvePath cfg.configDir relPath) =
          some (Entry.symlink (m.sharedConfigPath ++ info.path))) ∧
    (∀ itemName,
      (syncItem m fs agent kind itemName Strategy.symlink ts).1 = SyncRet.rTrue →
        FS.lookup (syncItem m fs agent kind itemName Strategy.symlink ts).2
            (resolvePath cfg.configDir relPath ++ [itemName]) =
          some (Entry.symlink (itemSource m fs agent kind itemName))) := by
  constructor
  · intro info h3 hsucc
    by_cases hcd : FS.existsF fs cfg.configDir = false
    · simp [syncResource, h1, hcd] at hsucc
    · simp only [Bool.not_eq_false] at hcd
      rw [syncResource_eq_symlink m fs agent kind ts cfg info relPath h1 h3 hm hcd]
      exact lookup_set_self _ _ _
  · intro itemName hsucc
    by_cases hcd : FS.existsF fs cfg.configDir = false
    · simp [syncItem, h1, hcd] at hsucc
    · simp only [Bool.not_eq_false] at hcd
      by_cases hsr : (lookupStr m.sharedResources kind).isNone = true
      · simp [syncItem, h1, hcd, hsr] at hsucc
      · simp only [Bool.not_eq_true] at hsr
        by_cases hex : FS.existsF fs (itemSource m fs agent kind itemName) = false
        · simp [syncItem, h1, hcd, hsr, hex] at hsucc
        · simp only [Bool.not_eq_false] at hex
          cases hlink : FS.symlinkTo
              (backupIfExistsSingle
                (FS.mkdirAll fs (resolvePath cfg.configDir relPath))
                (resolvePath cfg.configDir relPath ++ [itemName]) ts)
              (resolvePath cfg.configDir relPath ++ [itemName])
              (itemSource m fs agent kind itemName) with
          | none => simp [syncItem, h1, hcd, hsr, hex, hm, hlink] at hsucc
          | some fs3 =>
            simp only [syncItem, h1, hcd, hsr, hex, hm, hlink]
            simp [symlinkTo_some _ _ _ _ hlink, lookup_set_self]

theorem link_strategy_dest_is_link_witness :
    FS.lookup (syncResource mBasic fsHealthy "t" "agents" Strategy.symlink "ts1").2
        ["cfg", "am"] = some (Entry.symlink ["sh", "agents"]) :=
  (link_strategy_dest_is_link mBasic fsHealthy "t" "agents" "ts1"
    { configDir := ["cfg"], resourceMapping := [("agents", ["am"])] } ["am"]
    (by decide) (by decide)).1
    { path := ["agents"], nestedSkills := [] } (by decide) (by decide)

/-- Claim C4 (amended): the resource-level sync never writes into the shared
source tree: provided the resolved destination and the backup path are
neither inside the shared tree nor ancestors of it, every path under the
shared root holds the same entry after the operation, under either strategy
and whatever the prior state of the destination (the preparation step clears
any link destination before the write). The config-level copy strategy does
not clear a link destination and can write through one into the shared
tree: see the counterexample. -/
theorem sync_resource_preserves_shared_tree (m : Manifest) (fs : FS)
    (agent kind ts : String) (strategy : Strategy)
    (cfg : AgentConfig) (info : ResourceInfo) (relPath : FsPath)
    (h1 : lookupStr m.agentCompatibility agent = some cfg)
    (h3 : lookupStr m.sharedResources kind = some info)
    (hm : lookupStr cfg.resourceMapping kind = some relPath)
    (ht1 : ¬ m.sharedConfigPath <+: resolvePath cfg.configDir relPath)
    (ht2 : ¬ resolvePath cfg.configDir relPath <+: m.sharedConfigPath)
    (hb1 : ¬ m.sharedConfigPath <+: backupPath (resolvePath cfg.configDir relPath) ts)
    (hb2 : ¬ backupPath (resolvePath cfg.configDir relPath) ts <+: m.sharedConfigPath) :
    ∀ p, m.sharedConfigPath <+: p →
      FS.lookup (syncResource m fs agent kind strategy ts).2 p = FS.lookup fs p := by
  intro p hp
  by_cases hcd : FS.existsF fs cfg.configDir = false
  · cases strategy <;> simp [syncResource, h1, h3, hm, hcd]
  · simp only [Bool.not_eq_false] at hcd
    have hpt : ¬ resolvePath cfg.configDir relPath <+: p := not_pfx_of_both hp ht1 ht2
    have hpb : ¬ backupPath (resolvePath cfg.configDir relPath) ts <+: p :=
      not_pfx_of_both hp hb1 hb2
    have hptb : ¬ p <+: (resolvePath cfg.configDir relPath).dropLast := by
      intro hc
      exact ht1 (hp.trans (hc.trans (dropLast_pfx _)))
    have hnept : resolvePath cfg.configDir relPath ≠ p := by
      intro hh
      exact hpt (hh ▸ List.prefix_rfl)
    have e1 : FS.lookup (FS.mkdirAll fs (resolvePath cfg.configDir relPath).dropLast) p =
        FS.lookup fs p := lookup_mkdirAll_not_pfx fs _ p hptb
    have e2 : FS.lookup
        (prepareDestResource
          (FS.mkdirAll fs (resolvePath cfg.configDir relPath).dropLast)
          (resolvePath cfg.configDir relPath) ts) p = FS.lookup fs p := by
      rw [prepare_lookup_outside _ _ _ _ hpt hpb, e1]
    have hclear := prepare_lookup_self
      (FS.mkdirAll fs (resolvePath cfg.configDir relPath).dropLast)
      (resolvePath cfg.configDir relPath) ts
    have hrt : FS.resolveTop
        (prepareDestResource
          (FS.mkdirAll fs (resolvePath cfg.configDir relPath).dropLast)
          (resolvePath cfg.configDir relPath) ts)
        (resolvePath cfg.configDir relPath) = resolvePath cfg.configDir relPath := by
      simp [FS.resolveTop, hclear]
    cases strategy with
    | symlink =>
      rw [syncResource_eq_symlink m fs agent kind ts cfg info relPath h1 h3 hm hcd]
      rw [lookup_set_ne _ _ _ _ hnept]
      exact e2
    | copy =>
      by_cases hdir : FS.isDirF
          (prepareDestResource
            (FS.mkdirAll fs (resolvePath cfg.configDir relPath).dropLast)
            (resolvePath cfg.configDir relPath) ts)
          (m.sharedConfigPath ++ info.path) = true
      · rw [syncResource_eq_copy_dir m fs agent kind ts cfg info relPath h1 h3 hm hcd hdir]
        rw [lookup_copyTree_outside _ _ _ p (by rw [hrt]; exact hpt)]
        exact e2
      · simp only [Bool.not_eq_true] at hdir
        rw [syncResource_eq_copy_nondir m fs agent kind ts cfg info relPath h1 h3 hm hcd hdir]
        cases hcp : FS.copy2
            (prepareDestResource
              (FS.mkdirAll fs (resolvePath cfg.configDir relPath).dropLast)
              (resolvePath cfg.configDir relPath) ts)
            (m.sharedConfigPath ++ info.path)
            (resolvePath cfg.configDir relPath) with
        | none => simpa [hcp] using e2
        | some fs4 =>
          obtain ⟨e, _, rfl⟩ := copy2_some _ _ _ _ hcp
          simp only [hcp]
          rw [hrt, lookup_set_ne _ _ _ _ hnept]
          exact e2

/-- One duplicate-strategy run of `sync_resource` on a directory source:
it succeeds, the destination subtree afterwards mirrors the source subtree
exactly, and paths outside the destination, its parent chain and the backup
area are untouched (entries that existed keep their value). -/
theorem syncResource_copy_run (m : Manifest) (fs : FS) (agent kind ts : String)
    (cfg : AgentConfig) (info : ResourceInfo) (relPath : FsPath) (src tgt : FsPath)
    (hsrcdef : src = m.sharedConfigPath ++ info.path)
    (htgtdef : tgt = resolvePath cfg.configDir relPath)
    (h1 : lookupStr m.agentCompatibility agent = some cfg)
    (h3 : lookupStr m.sharedResources kind = some info)
    (hm : lookupStr cfg.resourceMapping kind = some relPath)
    (hcd : FS.existsF fs cfg.configDir = true)
    (hsd : FS.lookup fs src = some Entry.dir)
    (hne : tgt ≠ [])
    (hst : ¬ src <+: tgt) (hts : ¬ tgt <+: src)
    (hsb : ¬ src <+: backupPath tgt ts) (hbs : ¬ backupPath tgt ts <+: src)
    (hsub : FS.lookup fs tgt = some Entry.dir ∨ FS.subtreeEntries fs tgt = []) :
    (syncResource m fs agent kind Strategy.copy ts).1 = SyncRet.rTrue ∧
    (∀ r : FsPath,
      FS.lookup (syncResource m fs agent kind Strategy.copy ts).2 (tgt ++ r) =
        FS.lookup fs (src ++ r)) ∧
    (∀ q, ¬ tgt <+: q → ¬ backupPath tgt ts <+: q → ¬ q <+: tgt.dropLast →
      FS.lookup (syncResource m fs agent kind Strategy.copy ts).2 q = FS.lookup fs q) ∧
    (∀ q e, FS.lookup fs q = some e → ¬ tgt <+: q → ¬ backupPath tgt ts <+: q →
      FS.lookup (syncResource m fs agent kind Strategy.copy ts).2 q = some e) := by
  subst hsrcdef
  subst htgtdef
  set SRC := m.sharedConfigPath ++ info.path with hSRC
  set TGT := resolvePath cfg.configDir relPath with hTGT
  set FS1 := FS.mkdirAll fs TGT.dropLast with hFS1
  set FS3 := prepareDestResource FS1 TGT ts with hFS3
  set BKP := backupPath TGT ts with hBKP
  have hdl : ¬ TGT <+: TGT.dropLast := by
    intro h
    have hl := h.length_le
    rw [List.length_dropLast] at hl
    have hpos := List.length_pos.mpr hne
    omega
  have hdesc_any : ∀ r : FsPath, ¬ TGT ++ r <+: TGT.dropLast := by
    intro r h
    exact hdl ((pfx_append TGT r).trans h)
  have hsrc_not_dl : ∀ r : FsPath, ¬ SRC ++ r <+: TGT.dropLast := by
    intro r h
    exact hst ((pfx_append SRC r).trans (h.trans (dropLast_pfx _)))
  have e1 : ∀ r : FsPath, FS.lookup FS1 (SRC ++ r) = FS.lookup fs (SRC ++ r) := fun r =>
    lookup_mkdirAll_not_pfx fs _ _ (hsrc_not_dl r)
  have e1t : ∀ r : FsPath, FS.lookup FS1 (TGT ++ r) = FS.lookup fs (TGT ++ r) := fun r =>
    lookup_mkdirAll_not_pfx fs _ _ (hdesc_any r)
  have hTS_comp : ∀ r : FsPath, ¬ TGT <+: SRC ++ r := fun r =>
    not_pfx_of_both (pfx_append SRC r) hst hts
  have hBS_comp : ∀ r : FsPath, ¬ BKP <+: SRC ++ r := fun r =>
    not_pfx_of_both (pfx_append SRC r) hsb hbs
  have e3 : ∀ r : FsPath, FS.lookup FS3 (SRC ++ r) = FS.lookup fs (SRC ++ r) := fun r =>
    (prepare_lookup_outside FS1 TGT (SRC ++ r) ts (hTS_comp r) (hBS_comp r)).trans (e1 r)
  have hsd3 : FS.lookup FS3 SRC = some Entry.dir := by
    have h9 := e3 []
    rw [List.append_nil] at h9
    rw [h9]
    exact hsd
  have hdir3 : FS.isDirF FS3 SRC = true := by simp [FS.isDirF, hsd3]
  have hclear : FS.lookup FS3 TGT = none := prepare_lookup_self FS1 TGT ts
  have hrtS : FS.resolveTop FS3 SRC = SRC := by simp [FS.resolveTop, hsd3]
  have hrtT : FS.resolveTop FS3 TGT = TGT := by simp [FS.resolveTop, hclear]
  have hBnone : ∀ r : FsPath, FS.lookup FS3 (TGT ++ r) = none := by
    rcases hsub with hdirT | hnil
    · have hT1 : FS.lookup FS1 TGT = some Entry.dir := by
        have h9 := e1t []
        rw [List.append_nil] at h9
        rw [h9]
        exact hdirT
      have hex : FS.existsF FS1 TGT = true := by simp [FS.existsF, hT1]
      have hsym : FS.isSymlinkF FS1 TGT = false := by simp [FS.isSymlinkF, hT1]
      have hmv : FS3 = FS.moveTree FS1 TGT BKP := prepare_of_plain FS1 TGT ts hex hsym
      intro r
      rw [hmv]
      exact lookup_moveTree_under_src FS1 TGT BKP (TGT ++ r) ⟨r, rfl⟩
        (not_pfx_of_both (pfx_append TGT r)
          (not_pfx_backupPath TGT ts hne) (backupPath_not_pfx TGT ts))
    · have hnone : ∀ q', TGT <+: q' → FS.lookup fs q' = none := fun q' hq' =>
        lookup_none_of_subtree_nil fs TGT q' hnil hq'
      have hT1 : FS.lookup FS1 TGT = none := by
        have h9 := e1t []
        rw [List.append_nil] at h9
        rw [h9]
        exact hnone TGT List.prefix_rfl
      have hfs3 : FS3 = FS1 := prepare_of_none FS1 TGT ts hT1
      intro r
      rw [hfs3, e1t r]
      exact hnone (TGT ++ r) ⟨r, rfl⟩
  have hrun : syncResource m fs agent kind Strategy.copy ts =
      (SyncRet.rTrue, FS.copyTree FS3 SRC TGT) :=
    syncResource_eq_copy_dir m fs agent kind ts cfg info relPath h1 h3 hm hcd hdir3
  refine ⟨by rw [hrun], ?_, ?_, ?_⟩
  · intro r
    rw [hrun]
    show FS.lookup (FS.copyTree FS3 SRC TGT) (TGT ++ r) = FS.lookup fs (SRC ++ r)
    rw [lookup_copyTree_rel FS3 SRC TGT r hrtS hrtT, e3 r, hBnone r]
    exact Option.or_none
  · intro q hq1 hq2 hq3
    rw [hrun]
    show FS.lookup (FS.copyTree FS3 SRC TGT) q = FS.lookup fs q
    rw [lookup_copyTree_outside FS3 SRC TGT q (by rw [hrtT]; exact hq1)]
    rw [prepare_lookup_outside FS1 TGT q ts hq1 hq2]
    exact lookup_mkdirAll_not_pfx fs _ q hq3
  · intro q e he hq1 hq2
    rw [hrun]
    show FS.lookup (FS.copyTree FS3 SRC TGT) q = some e
    rw [lookup_copyTree_outside FS3 SRC TGT q (by rw [hrtT]; exact hq1)]
    rw [prepare_lookup_outside FS1 TGT q ts hq1 hq2]
    exact lookup_mkdirAll_some fs _ q e he

/-- Claim C9: running the duplicate-strategy resource sync twice on the same
(source, destination), with a directory source, leaves the destination
subtree content-identical to the (unchanged) source subtree: every relative
path holds the same entry under the destination as under the source, so
nothing accumulates from the first run. -/
theorem duplicate_twice_idempotent (m : Manifest) (fs : FS)
    (agent kind ts1 ts2 : String)
    (cfg : AgentConfig) (info : ResourceInfo) (relPath : FsPath) (src tgt : FsPath)
    (hsrcdef : src = m.sharedConfigPath ++ info.path)
    (htgtdef : tgt = resolvePath cfg.configDir relPath)
    (h1 : lookupStr m.agentCompatibility agent = some cfg)
    (h3 : lookupStr m.sharedResources kind = some info)
    (hm : lookupStr cfg.resourceMapping kind = some relPath)
    (hc : FS.lookup fs cfg.configDir = some Entry.dir)
    (hsd : FS.lookup fs src = some Entry.dir)
    (hne : tgt ≠ [])
    (hst : ¬ src <+: tgt) (hts : ¬ tgt <+: src)
    (hsb1 : ¬ src <+: backupPath tgt ts1) (hb1s : ¬ backupPath tgt ts1 <+: src)
    (hsb2 : ¬ src <+: backupPath tgt ts2) (hb2s : ¬ backupPath tgt ts2 <+: src)
    (hct : ¬ tgt <+: cfg.configDir) (hcb1 : ¬ backupPath tgt ts1 <+: cfg.configDir)
    (hsub : FS.lookup fs tgt = some Entry.dir ∨ FS.subtreeEntries fs tgt = []) :
    (syncResource m fs agent kind Strategy.copy ts1).1 = SyncRet.rTrue ∧
    (syncResource m (syncResource m fs agent kind Strategy.copy ts1).2
        agent kind Strategy.copy ts2).1 = SyncRet.rTrue ∧
    (∀ r : FsPath,
      FS.lookup (syncResource m (syncResource m fs agent kind Strategy.copy ts1).2
          agent kind Strategy.copy ts2).2 (tgt ++ r) =
        FS.lookup fs (src ++ r)) ∧
    (∀ r : FsPath,
      FS.lookup (syncResource m (syncResource m fs agent kind Strategy.copy ts1).2
          agent kind Strategy.copy ts2).2 (src ++ r) =
        FS.lookup fs (src ++ r)) := by
  have cA : ∀ r : FsPath, ¬ tgt <+: src ++ r := fun r =>
    not_pfx_of_both (pfx_append src r) hst hts
  have cB1 : ∀ r : FsPath, ¬ backupPath tgt ts1 <+: src ++ r := fun r =>
    not_pfx_of_both (pfx_append src r) hsb1 hb1s
  have cB2 : ∀ r : FsPath, ¬ backupPath tgt ts2 <+: src ++ r := fun r =>
    not_pfx_of_both (pfx_append src r) hsb2 hb2s
  have cC : ∀ r : FsPath, ¬ src ++ r <+: tgt.dropLast := by
    intro r h
    exact hst ((pfx_append src r).trans (h.trans (dropLast_pfx _)))
  have hcd1 : FS.existsF fs cfg.configDir = true := by simp [FS.existsF, hc]
  obtain ⟨r1a, r1b, r1c, r1d⟩ := syncResource_copy_run m fs agent kind ts1 cfg info
    relPath src tgt hsrcdef htgtdef h1 h3 hm hcd1 hsd hne hst hts hsb1 hb1s hsub
  have hc2 : FS.lookup (syncResource m fs agent kind Strategy.copy ts1).2 cfg.configDir =
      some Entry.dir := r1d cfg.configDir Entry.dir hc hct hcb1
  have hcd2 : FS.existsF (syncResource m fs agent kind Strategy.copy ts1).2 cfg.configDir =
      true := by simp [FS.existsF, hc2]
  have hsd2 : FS.lookup (syncResource m fs agent kind Strategy.copy ts1).2 src =
      some Entry.dir := r1d src Entry.dir hsd hts hb1s
  have htgt2 : FS.lookup (syncResource m fs agent kind Strategy.copy ts1).2 tgt =
      some Entry.dir := by
    have h9 := r1b []
    rw [List.append_nil, List.append_nil] at h9
    rw [h9]
    exact hsd
  obtain ⟨r2a, r2b, r2c, r2d⟩ := syncResource_copy_run m
    (syncResource m fs agent kind Strategy.copy ts1).2 agent kind ts2 cfg info
    relPath src tgt hsrcdef htgtdef h1 h3 hm hcd2 hsd2 hne hst hts hsb2 hb2s
    (Or.inl htgt2)
  refine ⟨r1a, r2a, ?_, ?_⟩
  · intro r
    rw [r2b r]
    exact r1c (src ++ r) (cA r) (cB1 r) (cC r)
  · intro r
    rw [r2c (src ++ r) (cA r) (cB2 r) (cC r)]
    exact r1c (src ++ r) (cA r) (cB1 r) (cC r)

theorem duplicate_twice_idempotent_witness :
    (syncResource mBasic fsHealthy "t" "agents" Strategy.copy "t1").1 = SyncRet.rTrue ∧
    FS.lookup (syncResource mBasic
        (syncResource mBasic fsHealthy "t" "agents" Strategy.copy "t1").2
        "t" "agents" Strategy.copy "t2").2 ["cfg", "am", "f.md"] =
      FS.lookup fsHealthy ["sh", "agents", "f.md"] := by
  have h := duplicate_twice_idempotent mBasic fsHealthy "t" "agents" "t1" "t2"
    { configDir := ["cfg"], resourceMapping := [("agents", ["am"])] }
    { path := ["agents"], nestedSkills := [] } ["am"] ["sh", "agents"] ["cfg", "am"]
    rfl rfl (by decide) (by decide) (by decide) (by decide) (by decide) (by decide)
    (by decide) (by decide) (by decide) (by decide) (by decide) (by decide)
    (by decide) (by decide) (Or.inr (by decide))
  exact ⟨h.1, h.2.2.1 ["f.md"]⟩

theorem sync_resource_preserves_shared_tree_witness :
    FS.lookup (syncResource mBasic fsHealthy "t" "agents" Strategy.copy "ts1").2
        ["sh", "agents", "f.md"] = FS.lookup fsHealthy ["sh", "agents", "f.md"] :=
  sync_resource_preserves_shared_tree mBasic fsHealthy "t" "agents" "ts1" Strategy.copy
    { configDir := ["cfg"], resourceMapping := [("agents", ["am"])] }
    { path := ["agents"], nestedSkills := [] } ["am"]
    (by decide) (by decide) (by decide) (by decide) (by decide) (by decide) (by decide)
    ["sh", "agents", "f.md"] (by decide)

end SyncSpec
